import Mathlib

set_option maxRecDepth 40000

/-!
Verification development for the SleepSense respiratory-event analysis engine.

The definitions below are a shallow embedding of the Python source:

* `SignalProcessor.normalize`            (src/src/data/signal_processor.py)
* `OSAAnalysis.detect_respiratory_events` (src/src/analysis/osa_analysis.py),
  the windowed-mode classifier
* `SleepAnalysis.analyze_full_study`     (src/src/analysis/sleep_analysis.py),
  the whole-study classifier and index aggregator

Channels are lists of rationals; a raw channel entry that is missing,
non-numeric or infinite is `none`.  Python float thresholds (0.1, 0.3, ...)
are embedded as the exact rationals they denote in the source text.
-/

unseal Rat.mul Rat.sub Rat.add Rat.inv

namespace SleepSense

/-- Event type of a classified respiratory episode. -/
inductive EventType
  | apnea
  | hypopnea
deriving DecidableEq

/-- A closed respiratory event, as built by the classifiers. -/
structure RespiratoryEvent where
  type : EventType
  startTime : ℚ
  endTime : ℚ
  duration : ℚ
deriving DecidableEq

/-- Python `int(q)`: truncation toward zero. -/
def truncInt (q : ℚ) : ℤ :=
  if 0 ≤ q then ⌊q⌋ else ⌈q⌉

/-! ### Windowed-mode classifier (`OSAAnalysis.detect_respiratory_events`) -/

/-- One iteration of the loop in `detect_respiratory_events` (lines 37-60).
State `none` is Idle; `some (s, ty)` is an open episode that began at time `s`
with type `ty`.  The pair `p` is `(time_val, flow_val)`. -/
def osaStep (acc : List RespiratoryEvent × Option (ℚ × EventType)) (p : ℚ × ℚ) :
    List RespiratoryEvent × Option (ℚ × EventType) :=
  match acc.2 with
  | none =>
      if p.2 < 1/10 then (acc.1, some (p.1, EventType.apnea))
      else if p.2 < 3/10 then (acc.1, some (p.1, EventType.hypopnea))
      else (acc.1, none)
  | some (s, ty) =>
      if p.2 > 3/10 then
        if p.1 - s ≥ 10 then
          (acc.1 ++ [⟨ty, s, p.1, p.1 - s⟩], none)
        else (acc.1, none)
      else acc

/-- `numpy searchsorted(v, side = left)` on a sorted list: number of entries
strictly below `v`. -/
def searchsortedLeft (t : List ℚ) (v : ℚ) : ℕ :=
  t.countP (fun x => decide (x < v))

/-- `numpy searchsorted(v, side = right)` on a sorted list: number of entries
at most `v`. -/
def searchsortedRight (t : List ℚ) (v : ℚ) : ℕ :=
  t.countP (fun x => decide (x ≤ v))

/-- Python `l.iloc[a:b]`. -/
def ilocSlice (l : List ℚ) (a b : ℕ) : List ℚ :=
  (l.drop a).take (b - a)

/-- The `(time_val, flow_val)` pairs scanned by `detect_respiratory_events`:
`zip` of the `iloc[start_idx:end_idx]` slices of the time and flow channels
(lines 20-26, 37). -/
def scannedPairs (time flow : List ℚ) (startTime endTime : ℚ) : List (ℚ × ℚ) :=
  let a := searchsortedLeft time startTime
  let b := searchsortedRight time endTime
  List.zip (ilocSlice time a b) (ilocSlice flow a b)

/-- `OSAAnalysis.detect_respiratory_events` (lines 16-62): the returned event
list.  The `detected_events` buffer is cleared on entry, so the result is a
pure function of the inputs. -/
def detect_respiratory_events (time flow : List ℚ) (startTime endTime : ℚ) :
    List RespiratoryEvent :=
  ((scannedPairs time flow startTime endTime).foldl osaStep ([], none)).1

/-! ### Whole-study classifier (`SleepAnalysis.analyze_full_study`, lines 56-108) -/

/-- `min_samples = int(10 * self.sample_rate)` (line 41). -/
def minSamples (sr : ℚ) : ℤ :=
  truncInt (10 * sr)

/-- One iteration of the event-detection part of the whole-study loop
(lines 63-104), processing sample index `p.1` with flow value
`p.2 = flow[p.1]`.  State `none` is Idle; `some (s, ty)` is an open episode
that began at sample index `s`.  A closed episode that passes the duration
gate is recorded with the type fixed at entry, start time `time[s]`, end time
`time[i]` and duration `(i - s) / sample_rate`; the Python loop itself keeps
only counts and durations, and the start and end times recorded here make the
closed episodes explicit without changing which episodes are kept. -/
def studyStep (sr : ℚ) (time : List ℚ)
    (acc : List RespiratoryEvent × Option (ℕ × EventType)) (p : ℕ × ℚ) :
    List RespiratoryEvent × Option (ℕ × EventType) :=
  let i := p.1
  let f := p.2
  match acc.2 with
  | none =>
      if f < 1/10 then (acc.1, some (i, EventType.apnea))
      else if 1/10 ≤ f ∧ f < 3/10 then (acc.1, some (i, EventType.hypopnea))
      else (acc.1, none)
  | some (s, ty) =>
      if ¬ (f < 1/10 ∨ (1/10 ≤ f ∧ f < 3/10)) then
        if (i : ℤ) - (s : ℤ) ≥ minSamples sr then
          (acc.1 ++ [⟨ty, time.getD s 0, time.getD i 0, ((i : ℚ) - (s : ℚ)) / sr⟩],
           none)
        else (acc.1, none)
      else acc

/-- The closed, duration-gated episodes of the whole-study loop
(`for i in range(len(flow))`, lines 56-108): the loop visits each index `i`
paired with the flow value `flow[i]`, which is exactly `flow.enum`. -/
def wholeStudyEvents (sr : ℚ) (time flow : List ℚ) : List RespiratoryEvent :=
  (flow.enum.foldl (studyStep sr time) ([], none)).1

/-! ### Index aggregator and result mapping (`analyze_full_study`, lines 15-195) -/

/-- The channel table handed to `analyze_full_study`: the normalized signals
dictionary.  `time` is the shared time axis in seconds; the other fields are
the `_n` channels the analysis reads.  The body-position channel is kept as
raw channel values; the loop applies Python `int()` to each entry. -/
structure StudySignals where
  time : List ℚ
  flow : List ℚ
  bodyPos : List ℚ
  activity : List ℚ
  spo2 : List ℚ
  pulse : List ℚ
  snore : List ℚ

/-- The position code the loop derives at sample `i` (line 58):
`int(body_pos.iloc[i]) if i < len(body_pos) else 0`. -/
def posAt (s : StudySignals) (i : ℕ) : ℤ :=
  if h : i < s.bodyPos.length then truncInt (s.bodyPos.get ⟨i, h⟩) else 0

/-- `position_counts[k]` after the loop (lines 44, 57-61): the number of
scanned sample indices whose derived position code is `k`; the dictionary
holds a key exactly for the codes with a positive count. -/
def posCount (s : StudySignals) (k : ℤ) : ℕ :=
  (List.range s.flow.length).countP (fun i => decide (posAt s i = k))

/-- `tib_hours` (lines 20-23): time-axis span in hours. -/
def tibHours (s : StudySignals) : ℚ :=
  ((s.time.getLast?.getD 0) - (s.time.head?.getD 0)) / 3600

/-- The fields of the flat result mapping that this development reasons
about (the remaining keys of the Python dictionary are constants or further
aggregates of the same quantities). -/
structure AnalysisResults where
  tibHours : ℚ
  ahi : ℚ
  rdi : ℚ
  obstructiveApneas : ℕ
  centralApneas : ℕ
  hypopneas : ℕ
  totalApneas : ℕ
  flowLimitations : ℕ
  supinePercent : ℚ
  leftPercent : ℚ
  rightPercent : ℚ
  pronePercent : ℚ
  otherPositions : ℤ → Option ℚ
  remPercent : ℚ
  desatCount : ℕ
  desatIndex : ℚ
  snoreIndex : ℚ

/-- The computation of `analyze_full_study` on a study whose channels are
nonempty (so that none of the accesses and divisions in the source raise).
Field by field this follows lines 20-195 of the source; the event counts
are read off the closed gated episodes of the loop. -/
def analyzeCore (sr : ℚ) (s : StudySignals) : AnalysisResults :=
  let tib := tibHours s
  let events := wholeStudyEvents sr s.time s.flow
  let apneas := events.countP (fun e => decide (e.type = EventType.apnea))
  let hypopneas := events.countP (fun e => decide (e.type = EventType.hypopnea))
  let flowLim := s.flow.countP (fun f => decide (3/10 ≤ f ∧ f < 5/10))
  let totalSamples := s.bodyPos.length
  let pct : ℤ → ℚ := fun k =>
    if totalSamples > 0 then ((posCount s k : ℚ) / (totalSamples : ℚ)) * 100 else 0
  let spo2orig := s.spo2.map (fun x => 85 + x * 15)
  let desats := (spo2orig.zip spo2orig.tail).countP (fun p => decide (p.2 - p.1 < -3))
  let obstructive := (truncInt ((apneas : ℚ) * (3/4))).toNat
  { tibHours := tib
    ahi := if tib > 0 then ((apneas : ℚ) + hypopneas) / tib else 0
    rdi := if tib > 0 then ((apneas : ℚ) + hypopneas + flowLim) / tib else 0
    obstructiveApneas := obstructive
    centralApneas := apneas - obstructive
    hypopneas := hypopneas
    totalApneas := apneas
    flowLimitations := flowLim
    supinePercent := pct 0
    leftPercent := pct 1
    rightPercent := pct 2
    pronePercent := pct 3
    otherPositions := fun k =>
      if k > 3 ∧ posCount s k ≠ 0 then some (pct k) else none
    remPercent :=
      ((s.activity.countP (fun a => decide (a < 1/5)) : ℚ) / (s.activity.length : ℚ)) * 100
    desatCount := desats
    desatIndex := if tib > 0 then (desats : ℚ) / tib else 0
    snoreIndex :=
      if tib > 0 then ((s.snore.countP (fun x => decide (x > 7/10)) : ℚ) / tib) else 0 }

/-- `SleepAnalysis.analyze_full_study`.  On an empty study the Python method
raises (`time_series.iloc[-1]` on line 21 fails with IndexError, and the
divisions by `len(flow)`, `len(rem_periods)` and `len(spo2_original)` on
lines 128, 172 and 183 fail with ZeroDivisionError); this is modelled by
`none`.  On studies with nonempty channels it returns the result mapping. -/
def analyze_full_study (sr : ℚ) (s : StudySignals) : Option AnalysisResults :=
  if s.time = [] ∨ s.flow = [] ∨ s.activity = [] ∨ s.spo2 = [] then none
  else some (analyzeCore sr s)

/-! ### Signal normalizer (`SignalProcessor.normalize`, lines 30-57)

A raw channel is a `List (Option ℚ)`: `none` stands for an entry that is
missing, fails numeric coercion, or is infinite — exactly the entries that
are `NaN` after lines 36-39 of the source. -/

/-- Insert into a sorted list (ascending). -/
def insertSorted (x : ℚ) : List ℚ → List ℚ
  | [] => [x]
  | y :: ys => if x ≤ y then x :: y :: ys else y :: insertSorted x ys

/-- Sort ascending (insertion sort). -/
def sortQ (l : List ℚ) : List ℚ :=
  l.foldr insertSorted []

/-- The median as pandas computes it: middle element of the sorted values for
odd length, mean of the two middle elements for even length, and (by
convention here) 0 on the empty list — the caller treats that case
separately. -/
def medianQ (l : List ℚ) : ℚ :=
  let srt := sortQ l
  let n := srt.length
  if n = 0 then 0
  else if n % 2 = 1 then srt.getD (n / 2) 0
  else (srt.getD (n / 2 - 1) 0 + srt.getD (n / 2) 0) / 2

/-- The value `fillna` uses (lines 41-45): the median of the valid entries,
or 0.0 when every entry is invalid. -/
def fillValue (s : List (Option ℚ)) : ℚ :=
  let valid := s.filterMap id
  if valid = [] then 0 else medianQ valid

/-- The cleaned channel (lines 36-45): invalid entries replaced by the
channel median (or 0.0 when there is no valid entry). -/
def cleanedChannel (s : List (Option ℚ)) : List ℚ :=
  s.map (fun x => x.getD (fillValue s))

/-- `series.min()` of a nonempty channel (0 is never used: callers guard). -/
def listMin : List ℚ → ℚ
  | [] => 0
  | x :: xs => xs.foldl min x

/-- `series.max()` of a nonempty channel. -/
def listMax : List ℚ → ℚ
  | [] => 0
  | x :: xs => xs.foldl max x

/-- `np.clip(v, 0.0, 1.0)`. -/
def clip01 (v : ℚ) : ℚ :=
  min 1 (max 0 v)

/-- `SignalProcessor.normalize` (lines 30-57).  Empty (or null) input gives a
constant 0.5 channel of length 100; a constant cleaned channel gives a
constant 0.5 channel of the same length; otherwise the affine rescaling
clipped to [0, 1]. -/
def normalize (s : List (Option ℚ)) : List ℚ :=
  if s = [] then List.replicate 100 (1/2)
  else
    let cleaned := cleanedChannel s
    let mn := listMin cleaned
    let mx := listMax cleaned
    if mn = mx then List.replicate cleaned.length (1/2)
    else cleaned.map (fun x => clip01 ((x - mn) / (mx - mn)))

/-! ### Spec-modelled windowed scan and concrete signals -/

/-- Modelled from the spec: the windowed classifier as the spec describes its
slicing — it "scans only a caller-supplied `[start_time, end_time)` slice",
i.e. exactly the samples with `start_time <= t < end_time` — with the same
per-sample state machine.  Used only to compare the spec wording of C4 with
the source behaviour. -/
def detectEventsHalfOpenSpec (time flow : List ℚ) (startTime endTime : ℚ) :
    List RespiratoryEvent :=
  (((time.zip flow).filter
      (fun p => decide (startTime ≤ p.1) && decide (p.1 < endTime))).foldl
    osaStep ([], none)).1

/-- Time axis of the 600-sample 10 Hz test signal of the spec (section 8). -/
def testTime : List ℚ :=
  (List.range 600).map (fun i => (i : ℚ) / 10)

/-- Flow channel of the test signal: 1.0 everywhere except samples 100-219
(12 s) at 0.05. -/
def testFlow : List ℚ :=
  (List.range 600).map (fun i => if 100 ≤ i ∧ i ≤ 219 then 1/20 else 1)

/-- Time axis for the recovery-threshold boundary signal: 102 samples at
10 Hz. -/
def borderTime : List ℚ :=
  (List.range 102).map (fun i => (i : ℚ) / 10)

/-- Flow for the boundary signal: a 10 s apnea dip, one sample exactly at the
0.3 recovery threshold at t = 10.0, then full flow. -/
def borderFlow : List ℚ :=
  (List.range 102).map (fun i => if i ≤ 99 then 1/20 else if i = 100 then 3/10 else 1)

/-- Time axis for the window-edge signal: 101 samples, t = 0 .. 10.0. -/
def edgeTime : List ℚ :=
  (List.range 101).map (fun i => (i : ℚ) / 10)

/-- Flow for the window-edge signal: a 10 s apnea dip that recovers exactly at
t = 10.0, the right edge of the query window. -/
def edgeFlow : List ℚ :=
  (List.range 101).map (fun i => if i ≤ 99 then 1/20 else 1)

/-! ### Helper lemmas and claim theorems -/

lemma truncInt_of_nonneg {q : ℚ} (h : 0 ≤ q) : truncInt q = ⌊q⌋ := by
  simp [truncInt, h]

lemma truncInt_mul_three_quarters (a : ℕ) :
    ((truncInt ((a : ℚ) * (3/4))).toNat : ℤ) = ⌊(a : ℚ) * (3/4)⌋ ∧
      (truncInt ((a : ℚ) * (3/4))).toNat ≤ a := by
  have hq : (0 : ℚ) ≤ (a : ℚ) * (3/4) := by positivity
  have htr : truncInt ((a : ℚ) * (3/4)) = ⌊(a : ℚ) * (3/4)⌋ := truncInt_of_nonneg hq
  have hfl : (0 : ℤ) ≤ ⌊(a : ℚ) * (3/4)⌋ := Int.floor_nonneg.mpr hq
  constructor
  · rw [htr, Int.toNat_of_nonneg hfl]
  · have hle : (a : ℚ) * (3/4) ≤ (a : ℚ) := by
      nlinarith [Rat.num_nonneg.mpr (show (0:ℚ) ≤ (a:ℚ) from by positivity)]
    have : ⌊(a : ℚ) * (3/4)⌋ ≤ ⌊(a : ℚ)⌋ := Int.floor_le_floor hle
    rw [Int.floor_natCast] at this
    omega

/-- C6: for every study whose time-axis span gives hours in bed at most 0
(and whose channels are nonempty, so the analysis returns at all), the
analysis returns with AHI, RDI, desaturation index and snore index all 0,
without raising. -/
theorem degenerate_tib_zero_indices (sr : ℚ) (s : StudySignals)
    (ht : s.time ≠ []) (hf : s.flow ≠ []) (ha : s.activity ≠ []) (ho : s.spo2 ≠ [])
    (h0 : tibHours s ≤ 0) :
    ∃ r, analyze_full_study sr s = some r ∧
      r.ahi = 0 ∧ r.rdi = 0 ∧ r.desatIndex = 0 ∧ r.snoreIndex = 0 := by
  refine ⟨analyzeCore sr s, by simp [analyze_full_study, ht, hf, ha, ho], ?_, ?_, ?_, ?_⟩ <;>
    simp [analyzeCore, not_lt.mpr h0]

/-- Witness for C6: a one-sample study has hours in bed 0 and all four
indices 0. -/
theorem degenerate_tib_zero_indices_witness :
    tibHours ⟨[5], [1/2], [1/2], [1/2], [1/2], [1/2], [1/2]⟩ ≤ 0 ∧
      ∃ r, analyze_full_study 10 ⟨[5], [1/2], [1/2], [1/2], [1/2], [1/2], [1/2]⟩ = some r ∧
        r.ahi = 0 ∧ r.rdi = 0 ∧ r.desatIndex = 0 ∧ r.snoreIndex = 0 :=
  ⟨by decide,
   degenerate_tib_zero_indices 10 _ (by decide) (by decide) (by decide) (by decide)
     (by decide)⟩

/-- C10: the result mapping reports `obstructive_apneas = int(0.75 *
total_apneas)` (the floor, since the count is nonnegative) and
`central_apneas = total_apneas - obstructive_apneas`; the split is a fixed
75/25 function of the apnea count alone, and the two parts always add back
up to `total_apneas`. -/
theorem apnea_split_fixed_ratio (sr : ℚ) (s : StudySignals)
    (ht : s.time ≠ []) (hf : s.flow ≠ []) (ha : s.activity ≠ []) (ho : s.spo2 ≠ []) :
    ∃ r, analyze_full_study sr s = some r ∧
      (r.obstructiveApneas : ℤ) = ⌊(r.totalApneas : ℚ) * (3/4)⌋ ∧
      r.centralApneas = r.totalApneas - r.obstructiveApneas ∧
      r.obstructiveApneas + r.centralApneas = r.totalApneas := by
  refine ⟨analyzeCore sr s, by simp [analyze_full_study, ht, hf, ha, ho], ?_, ?_, ?_⟩
  · simp only [analyzeCore]
    exact (truncInt_mul_three_quarters _).1
  · simp only [analyzeCore]
  · simp only [analyzeCore]
    have := (truncInt_mul_three_quarters
      ((wholeStudyEvents sr s.time s.flow).countP
        (fun e => decide (e.type = EventType.apnea)))).2
    omega

lemma clip01_nonneg (v : ℚ) : 0 ≤ clip01 v :=
  le_min (by norm_num) (le_max_left 0 v)

lemma clip01_le_one (v : ℚ) : clip01 v ≤ 1 :=
  min_le_left 1 _

lemma foldl_min_le_init (xs : List ℚ) : ∀ a, xs.foldl min a ≤ a := by
  induction xs with
  | nil => intro a; exact le_refl a
  | cons x xs ih =>
      intro a
      exact le_trans (ih (min a x)) (min_le_left a x)

lemma foldl_min_le_mem (xs : List ℚ) : ∀ a, ∀ x ∈ xs, xs.foldl min a ≤ x := by
  induction xs with
  | nil => intro a x hx; cases hx
  | cons y ys ih =>
      intro a x hx
      rcases List.mem_cons.mp hx with h | h
      · subst h
        exact le_trans (foldl_min_le_init ys (min a x)) (min_le_right a x)
      · exact ih (min a y) x h

lemma foldl_min_mem (xs : List ℚ) : ∀ a, xs.foldl min a = a ∨ xs.foldl min a ∈ xs := by
  induction xs with
  | nil => intro a; exact Or.inl rfl
  | cons y ys ih =>
      intro a
      rcases ih (min a y) with h | h
      · rcases min_cases a y with ⟨he, _⟩ | ⟨he, _⟩
        · exact Or.inl (by rw [List.foldl_cons, h, he])
        · exact Or.inr (by rw [List.foldl_cons, h, he]; exact List.mem_cons_self y ys)
      · exact Or.inr (List.mem_cons_of_mem y h)

lemma init_le_foldl_max (xs : List ℚ) : ∀ a, a ≤ xs.foldl max a := by
  induction xs with
  | nil => intro a; exact le_refl a
  | cons x xs ih =>
      intro a
      exact le_trans (le_max_left a x) (ih (max a x))

lemma mem_le_foldl_max (xs : List ℚ) : ∀ a, ∀ x ∈ xs, x ≤ xs.foldl max a := by
  induction xs with
  | nil => intro a x hx; cases hx
  | cons y ys ih =>
      intro a x hx
      rcases List.mem_cons.mp hx with h | h
      · subst h
        exact le_trans (le_max_right a x) (init_le_foldl_max ys (max a x))
      · exact ih (max a y) x h

lemma foldl_max_mem (xs : List ℚ) : ∀ a, xs.foldl max a = a ∨ xs.foldl max a ∈ xs := by
  induction xs with
  | nil => intro a; exact Or.inl rfl
  | cons y ys ih =>
      intro a
      rcases ih (max a y) with h | h
      · rcases max_cases a y with ⟨he, _⟩ | ⟨he, _⟩
        · exact Or.inl (by rw [List.foldl_cons, h, he])
        · exact Or.inr (by rw [List.foldl_cons, h, he]; exact List.mem_cons_self y ys)
      · exact Or.inr (List.mem_cons_of_mem y h)

lemma listMin_le {l : List ℚ} {x : ℚ} (hx : x ∈ l) : listMin l ≤ x := by
  cases l with
  | nil => cases hx
  | cons y ys =>
      rcases List.mem_cons.mp hx with h | h
      · subst h; exact foldl_min_le_init ys x
      · exact foldl_min_le_mem ys y x h

lemma le_listMax {l : List ℚ} {x : ℚ} (hx : x ∈ l) : x ≤ listMax l := by
  cases l with
  | nil => cases hx
  | cons y ys =>
      rcases List.mem_cons.mp hx with h | h
      · subst h; exact init_le_foldl_max ys x
      · exact mem_le_foldl_max ys y x h

lemma listMin_mem {l : List ℚ} (hl : l ≠ []) : listMin l ∈ l := by
  cases l with
  | nil => exact absurd rfl hl
  | cons y ys =>
      rcases foldl_min_mem ys y with h | h
      · show ys.foldl min y ∈ y :: ys
        rw [h]; exact List.mem_cons_self y ys
      · exact List.mem_cons_of_mem y h

lemma listMax_mem {l : List ℚ} (hl : l ≠ []) : listMax l ∈ l := by
  cases l with
  | nil => exact absurd rfl hl
  | cons y ys =>
      rcases foldl_max_mem ys y with h | h
      · show ys.foldl max y ∈ y :: ys
        rw [h]; exact List.mem_cons_self y ys
      · exact List.mem_cons_of_mem y h

lemma normalize_mem_unit {s : List (Option ℚ)} {y : ℚ} (hy : y ∈ normalize s) :
    0 ≤ y ∧ y ≤ 1 := by
  by_cases hs : s = []
  · rw [hs] at hy
    simp only [normalize, if_pos rfl] at hy
    have := List.eq_of_mem_replicate hy
    subst this
    norm_num
  · simp only [normalize, if_neg hs] at hy
    by_cases hmm : listMin (cleanedChannel s) = listMax (cleanedChannel s)
    · rw [if_pos hmm] at hy
      have := List.eq_of_mem_replicate hy
      subst this
      norm_num
    · rw [if_neg hmm] at hy
      rcases List.mem_map.mp hy with ⟨x, _, hx⟩
      exact hx ▸ ⟨clip01_nonneg _, clip01_le_one _⟩

/-- C9: the Normalizer is total: the empty (or null) channel becomes the
constant one-half channel of default length 100; every output element lies
in [0, 1] whatever the input defects; and the output is unchanged when the
invalid entries are replaced up front by the fill value (the median of the
valid entries, 0 when there is none), which is exactly the fillna step of
the source.  Coercion failures and infinities are the `none` entries of the
embedded channel, so no input defect escapes as an exception. -/
theorem normalize_total_safety :
    normalize [] = List.replicate 100 (1/2) ∧
    (∀ s : List (Option ℚ), (normalize s).length = if s = [] then 100 else s.length) ∧
    (∀ s : List (Option ℚ), ∀ y ∈ normalize s, 0 ≤ y ∧ y ≤ 1) ∧
    (∀ s : List (Option ℚ), s ≠ [] →
      normalize s = normalize (s.map (fun x => some (x.getD (fillValue s))))) := by
  refine ⟨by simp [normalize], ?_, fun s y hy => normalize_mem_unit hy, ?_⟩
  · intro s
    by_cases hs : s = []
    · simp [normalize, hs]
    · simp only [normalize, if_neg hs]
      split <;> simp [cleanedChannel]
  · intro s hs
    have hs' : s.map (fun x => some (x.getD (fillValue s))) ≠ [] := by
      simpa using hs
    have hc : cleanedChannel (s.map (fun x => some (x.getD (fillValue s)))) =
        cleanedChannel s := by
      simp [cleanedChannel, List.map_map, Function.comp]
    simp only [normalize, if_neg hs, if_neg hs', hc]

/-- Witness for C9 at a concrete defective channel: one missing entry,
filled with the median of the valid entries. -/
theorem normalize_total_safety_witness :
    normalize [none, some 3] =
      normalize ([none, some (3:ℚ)].map (fun x => some (x.getD (fillValue [none, some 3])))) :=
  normalize_total_safety.2.2.2 [none, some 3] (by decide)

/-- Counterexample to C5 as stated: the channel `[2, 2]` has a valid value,
but `normalize` returns the constant one-half channel (the degenerate
min = max branch of the source), so its minimum value maps to 1/2, not 0,
and the output is not the affine-clip image of the cleaned channel. -/
theorem normalize_constant_counterexample :
    ([some (2:ℚ), some 2].filterMap id ≠ []) ∧
    normalize [some (2:ℚ), some 2] = [1/2, 1/2] ∧
    ((1:ℚ)/2 ≠ 0) := by decide

/-- C5 (amended): for a channel with at least one valid value whose cleaned
minimum and maximum differ, `normalize` cleans the channel and maps each
element through `clip((x - min) / (max - min), 0, 1)`; every output element
lies in [0, 1], the minimum is attained and maps to 0, and the maximum is
attained and maps to 1.  (As stated the claim also covered constant
channels, where the source instead returns the constant one-half channel.) -/
theorem normalize_affine_rescaling (s : List (Option ℚ))
    (hval : s.filterMap id ≠ [])
    (hne : listMin (cleanedChannel s) ≠ listMax (cleanedChannel s)) :
    normalize s = (cleanedChannel s).map
        (fun x => clip01 ((x - listMin (cleanedChannel s)) /
          (listMax (cleanedChannel s) - listMin (cleanedChannel s)))) ∧
    (∀ y ∈ normalize s, 0 ≤ y ∧ y ≤ 1) ∧
    listMin (cleanedChannel s) ∈ cleanedChannel s ∧
    listMax (cleanedChannel s) ∈ cleanedChannel s ∧
    (∀ i, i < s.length → (cleanedChannel s).getD i 0 = listMin (cleanedChannel s) →
      (normalize s).getD i 0 = 0) ∧
    (∀ i, i < s.length → (cleanedChannel s).getD i 0 = listMax (cleanedChannel s) →
      (normalize s).getD i 0 = 1) := by
  have hs : s ≠ [] := by
    intro h
    rw [h] at hval
    exact hval rfl
  have hclen : (cleanedChannel s).length = s.length := by
    simp [cleanedChannel]
  have hcne : cleanedChannel s ≠ [] := by
    intro h
    have := congrArg List.length h
    rw [hclen] at this
    exact hs (List.length_eq_zero.mp this)
  have hform : normalize s = (cleanedChannel s).map
      (fun x => clip01 ((x - listMin (cleanedChannel s)) /
        (listMax (cleanedChannel s) - listMin (cleanedChannel s)))) := by
    simp only [normalize, if_neg hs, if_neg hne]
  have hpoint : ∀ i, i < s.length → ∀ v : ℚ,
      (cleanedChannel s).getD i 0 = v →
      (normalize s).getD i 0 = clip01 ((v - listMin (cleanedChannel s)) /
        (listMax (cleanedChannel s) - listMin (cleanedChannel s))) := by
    intro i hi v hv
    rw [hform]
    have hic : i < (cleanedChannel s).length := by rw [hclen]; exact hi
    rw [List.getD_eq_getElem?_getD, List.getElem?_map]
    rw [List.getD_eq_getElem?_getD] at hv
    rw [List.getElem?_eq_getElem hic] at hv ⊢
    simp only [Option.map_some, Option.getD_some] at hv ⊢
    rw [hv]
    rfl
  refine ⟨hform, fun y hy => normalize_mem_unit hy, listMin_mem hcne, listMax_mem hcne,
    ?_, ?_⟩
  · intro i hi hv
    rw [hpoint i hi _ hv]
    simp [clip01]
  · intro i hi hv
    rw [hpoint i hi _ hv]
    have hdiff : listMax (cleanedChannel s) - listMin (cleanedChannel s) ≠ 0 :=
      sub_ne_zero.mpr (Ne.symm hne)
    rw [div_self hdiff]
    simp [clip01]

/-- Witness for C5 at the channel `[0, 1]`. -/
theorem normalize_affine_rescaling_witness :
    (∀ y ∈ normalize [some (0:ℚ), some 1], 0 ≤ y ∧ y ≤ 1) ∧
    (normalize [some (0:ℚ), some 1]).getD 0 0 = 0 ∧
    (normalize [some (0:ℚ), some 1]).getD 1 0 = 1 := by
  have h := normalize_affine_rescaling [some (0:ℚ), some 1] (by decide) (by decide)
  exact ⟨h.2.1, h.2.2.2.2.1 0 (by decide) (by decide), h.2.2.2.2.2 1 (by decide) (by decide)⟩

/-- Witness for C10 at a concrete two-sample study. -/
theorem apnea_split_fixed_ratio_witness :
    ∃ r, analyze_full_study 10 ⟨[0, 1], [1, 1], [0, 0], [1, 1], [1, 1], [1, 1], [1, 1]⟩ = some r ∧
      (r.obstructiveApneas : ℤ) = ⌊(r.totalApneas : ℚ) * (3/4)⌋ ∧
      r.centralApneas = r.totalApneas - r.obstructiveApneas ∧
      r.obstructiveApneas + r.centralApneas = r.totalApneas :=
  apnea_split_fixed_ratio 10 _ (by decide) (by decide) (by decide) (by decide)

lemma osaStep_fst (acc : List RespiratoryEvent × Option (ℚ × EventType)) (p : ℚ × ℚ) :
    (osaStep acc p).1 = acc.1 ∨
      ∃ s ty, acc.2 = some (s, ty) ∧ 10 ≤ p.1 - s ∧
        (osaStep acc p).1 = acc.1 ++ [⟨ty, s, p.1, p.1 - s⟩] := by
  obtain ⟨ev, st⟩ := acc
  cases st with
  | none =>
      left
      simp only [osaStep]
      split_ifs <;> rfl
  | some pr =>
      obtain ⟨s, ty⟩ := pr
      by_cases h : p.2 > 3/10
      · by_cases h2 : p.1 - s ≥ 10
        · right
          exact ⟨s, ty, rfl, h2, by simp [osaStep, h, h2]⟩
        · left
          simp [osaStep, h, h2]
      · left
        simp [osaStep, h]

lemma osaStep_snd (acc : List RespiratoryEvent × Option (ℚ × EventType)) (p : ℚ × ℚ) :
    (osaStep acc p).2 = none ∨ (osaStep acc p).2 = acc.2 ∨
      (osaStep acc p).2 = some (p.1, EventType.apnea) ∨
      (osaStep acc p).2 = some (p.1, EventType.hypopnea) := by
  obtain ⟨ev, st⟩ := acc
  cases st with
  | none =>
      simp only [osaStep]
      split_ifs
      · right; right; left; rfl
      · right; right; right; rfl
      · left; rfl
  | some pr =>
      obtain ⟨s, ty⟩ := pr
      simp only [osaStep]
      split_ifs
      · left; rfl
      · left; rfl
      · right; left; rfl

/-- Every event in the output of the windowed scan either was already in the
accumulator, or is a closed episode: its duration is end minus start and at
least 10, its end time is a scanned time value, and its start time is a
scanned time value or the start of the episode open on entry. -/
lemma osaScan_events (l : List (ℚ × ℚ)) :
    ∀ acc : List RespiratoryEvent × Option (ℚ × EventType),
      ∀ e ∈ (l.foldl osaStep acc).1,
        e ∈ acc.1 ∨
          (e.duration = e.endTime - e.startTime ∧ 10 ≤ e.duration ∧
            e.endTime ∈ l.map Prod.fst ∧
            (e.startTime ∈ l.map Prod.fst ∨ ∃ ty, acc.2 = some (e.startTime, ty))) := by
  induction l with
  | nil => intro acc e he; exact Or.inl he
  | cons p rest ih =>
      intro acc e he
      rw [List.foldl_cons] at he
      rcases ih (osaStep acc p) e he with hmem | ⟨hd, hge, hend, hstart⟩
      · -- `e` was present after the first step
        rcases osaStep_fst acc p with hf | ⟨s, ty, hst, hgate, hf⟩
        · exact Or.inl (hf ▸ hmem)
        · rw [hf] at hmem
          rcases List.mem_append.mp hmem with h1 | h1
          · exact Or.inl h1
          · rcases List.mem_singleton.mp h1 with rfl
            refine Or.inr ⟨rfl, hgate, ?_, ?_⟩
            · simp
            · exact Or.inr ⟨ty, hst⟩
      · -- `e` was produced while scanning `rest`
        refine Or.inr ⟨hd, hge, List.mem_cons_of_mem _ hend, ?_⟩
        rcases hstart with hs | ⟨ty, hs⟩
        · exact Or.inl (List.mem_cons_of_mem _ hs)
        · rcases osaStep_snd acc p with h2 | h2 | h2 | h2
          · rw [h2] at hs; cases hs
          · rw [h2] at hs; exact Or.inr ⟨ty, hs⟩
          · rw [h2] at hs
            injection hs with hs'
            have hse : e.startTime = p.1 := (congrArg Prod.fst hs').symm
            left
            rw [hse]
            simp
          · rw [h2] at hs
            injection hs with hs'
            have hse : e.startTime = p.1 := (congrArg Prod.fst hs').symm
            left
            rw [hse]
            simp

lemma studyStep_fst (sr : ℚ) (time : List ℚ)
    (acc : List RespiratoryEvent × Option (ℕ × EventType)) (p : ℕ × ℚ) :
    (studyStep sr time acc p).1 = acc.1 ∨
      ∃ s ty, acc.2 = some (s, ty) ∧ minSamples sr ≤ (p.1 : ℤ) - (s : ℤ) ∧
        (studyStep sr time acc p).1 =
          acc.1 ++ [⟨ty, time.getD s 0, time.getD p.1 0, ((p.1 : ℚ) - (s : ℚ)) / sr⟩] := by
  obtain ⟨ev, st⟩ := acc
  cases st with
  | none =>
      left
      simp only [studyStep]
      split_ifs <;> rfl
  | some pr =>
      obtain ⟨s, ty⟩ := pr
      by_cases hb : (p.2 < 1/10) ∨ (1/10 ≤ p.2 ∧ p.2 < 3/10)
      · left
        simp only [studyStep]
        rw [if_neg (not_not_intro hb)]
      · by_cases h2 : minSamples sr ≤ (p.1 : ℤ) - (s : ℤ)
        · right
          refine ⟨s, ty, rfl, h2, ?_⟩
          simp only [studyStep]
          rw [if_pos hb, if_pos h2]
        · left
          simp only [studyStep]
          rw [if_pos hb, if_neg h2]

/-- Every event in the output of the whole-study scan either was already in
the accumulator, or is a closed gated episode ending at a scanned sample
index. -/
lemma studyScan_events (sr : ℚ) (time : List ℚ) (l : List (ℕ × ℚ)) :
    ∀ acc : List RespiratoryEvent × Option (ℕ × EventType),
      ∀ e ∈ (l.foldl (studyStep sr time) acc).1,
        e ∈ acc.1 ∨
          ∃ (s i : ℕ) (ty : EventType), minSamples sr ≤ (i : ℤ) - (s : ℤ) ∧
            e = ⟨ty, time.getD s 0, time.getD i 0, ((i : ℚ) - (s : ℚ)) / sr⟩ ∧
            i ∈ l.map Prod.fst := by
  induction l with
  | nil => intro acc e he; exact Or.inl he
  | cons p rest ih =>
      intro acc e he
      rw [List.foldl_cons] at he
      rcases ih (studyStep sr time acc p) e he with hmem | ⟨s, i, ty, hgate, he, hi⟩
      · rcases studyStep_fst sr time acc p with hf | ⟨s, ty, _, hgate, hf⟩
        · exact Or.inl (hf ▸ hmem)
        · rw [hf] at hmem
          rcases List.mem_append.mp hmem with h1 | h1
          · exact Or.inl h1
          · rcases List.mem_singleton.mp h1 with rfl
            refine Or.inr ⟨s, p.1, ty, hgate, rfl, ?_⟩
            simp
      · exact Or.inr ⟨s, i, ty, hgate, he, List.mem_cons_of_mem _ hi⟩

/-- Counterexample to C3 as stated: on the boundary signal, the windowed
classifier scans a sample with normalized flow exactly 0.3 (at t = 10.0)
while an episode is open, and the episode does not end there: it ends only
at the next sample (t = 10.1), because the windowed recovery test is
`flow_val > 0.3`, strict.  Had the 0.3 sample ended the episode, the event
would end at time 10, not 10.1. -/
theorem recovery_at_threshold_counterexample :
    detect_respiratory_events borderTime borderFlow 0 11 =
      [⟨EventType.apnea, 0, 101/10, 101/10⟩] ∧
    ((101 : ℚ)/10 ≠ 10) := by decide

/-- C3 (amended): while an episode is open, the whole-study classifier ends
it at any sample with normalized flow at least 0.3, but the windowed
classifier ends it only for flow strictly above 0.3; a windowed sample at
exactly 0.3 leaves the episode open and unchanged. -/
theorem recovery_threshold_amended (ev : List RespiratoryEvent) (s t f : ℚ)
    (ty : EventType) (i sIdx : ℕ) (sr : ℚ) (time : List ℚ) :
    (3/10 < f → (osaStep (ev, some (s, ty)) (t, f)).2 = none) ∧
    (f = 3/10 → osaStep (ev, some (s, ty)) (t, f) = (ev, some (s, ty))) ∧
    (3/10 ≤ f → (studyStep sr time (ev, some (sIdx, ty)) (i, f)).2 = none) := by
  refine ⟨?_, ?_, ?_⟩
  · intro h
    simp only [osaStep, if_pos h]
    split <;> rfl
  · intro h
    subst h
    simp [osaStep]
  · intro h
    have h1 : ¬ ((f < 1/10) ∨ (1/10 ≤ f ∧ f < 3/10)) := by
      push_neg
      constructor
      · linarith
      · intro _
        linarith
    simp only [studyStep, if_pos h1]
    split <;> rfl

/-- Witness for C3 at concrete flow values 0.4 (both machines close) and
exactly 0.3 (whole-study closes, windowed stays open). -/
theorem recovery_threshold_amended_witness :
    (osaStep ([], some (0, EventType.apnea)) (1, 2/5)).2 = none ∧
    osaStep ([], some (0, EventType.apnea)) (1, 3/10) = ([], some (0, EventType.apnea)) ∧
    (studyStep 10 [] ([], some (0, EventType.apnea)) (5, 3/10)).2 = none :=
  ⟨(recovery_threshold_amended [] 0 1 (2/5) EventType.apnea 5 0 10 []).1 (by norm_num),
   (recovery_threshold_amended [] 0 1 (3/10) EventType.apnea 5 0 10 []).2.1 rfl,
   (recovery_threshold_amended [] 0 1 (3/10) EventType.apnea 5 0 10 []).2.2 (by norm_num)⟩

/-- Counterexample to C1 as stated: at sample rate 1/3 Hz the gate is
`int(10 * sr) = int(10/3) = 3` samples, not `ceil(10/3) = 4`: the study
below closes an apnea episode after 3 elapsed samples and the loop emits it
with duration 9 s, below the claimed 10 s minimum. -/
theorem duration_gate_ceil_counterexample :
    wholeStudyEvents (1/3) [0, 3, 6, 9] [1/20, 1/20, 1/20, 1] =
      [⟨EventType.apnea, 0, 9, 9⟩] ∧
    ((9 : ℚ) < 10) ∧
    (⌈(10 : ℚ) * (1/3)⌉ = 4) ∧
    minSamples (1/3) = 3 := by decide

/-- C1 (amended): every windowed-mode event has duration equal to end minus
start and at least 10 s (the windowed gate is on the time difference
itself).  In whole-study mode an episode is emitted exactly when the
elapsed sample count since entry reaches the truncated gate
`int(10 * sample_rate)` — not `ceil`: the closing transition of an open
episode appends precisely one `RespiratoryEvent` when the elapsed count is
at least the gate, and discards the episode silently (returning to Idle)
when it is below the gate.  Consequently every emitted whole-study episode
has duration at least `int(10 * sample_rate) / sample_rate`, which equals
10 s exactly when `10 * sample_rate` is an integer (in particular at the
default 10 Hz), and is slightly below 10 s otherwise. -/
theorem duration_gate_amended (time flow : List ℚ) (a b sr : ℚ)
    (ev : List RespiratoryEvent) (s i : ℕ) (ty : EventType) (f : ℚ)
    (hsr : 0 < sr) :
    (∀ e ∈ detect_respiratory_events time flow a b,
        e.duration = e.endTime - e.startTime ∧ 10 ≤ e.duration) ∧
    (∀ e ∈ wholeStudyEvents sr time flow,
        (minSamples sr : ℚ) / sr ≤ e.duration ∧
          ((minSamples sr : ℚ) = 10 * sr → 10 ≤ e.duration)) ∧
    (¬ (f < 1/10 ∨ (1/10 ≤ f ∧ f < 3/10)) →
      (minSamples sr ≤ (i : ℤ) - (s : ℤ) →
        studyStep sr time (ev, some (s, ty)) (i, f) =
          (ev ++ [⟨ty, time.getD s 0, time.getD i 0, ((i : ℚ) - (s : ℚ)) / sr⟩],
           none)) ∧
      ((i : ℤ) - (s : ℤ) < minSamples sr →
        studyStep sr time (ev, some (s, ty)) (i, f) = (ev, none))) := by
  refine ⟨?_, ?_, ?_⟩
  · intro e he
    rcases osaScan_events _ _ e he with h | ⟨hd, hge, _, _⟩
    · simp at h
    · exact ⟨hd, hge⟩
  · intro e he
    rcases studyScan_events sr time _ _ e he with h | ⟨s2, i2, ty2, hgate, he2, _⟩
    · simp at h
    · subst he2
      have hq : (minSamples sr : ℚ) ≤ (i2 : ℚ) - (s2 : ℚ) := by exact_mod_cast hgate
      have hdur : (minSamples sr : ℚ) / sr ≤ ((i2 : ℚ) - (s2 : ℚ)) / sr :=
        (div_le_div_iff_of_pos_right hsr).mpr hq
      refine ⟨hdur, ?_⟩
      intro h10
      rw [h10, mul_div_assoc, div_self (ne_of_gt hsr), mul_one] at hdur
      exact hdur
  · intro hband
    constructor
    · intro hgate
      simp only [studyStep]
      rw [if_pos hband, if_pos hgate]
    · intro hlt
      simp only [studyStep]
      rw [if_pos hband, if_neg (not_le.mpr hlt)]

/-- Witness for C1 at the 10 Hz test signal: the gate is 100 samples; a
closing transition after 100 elapsed samples emits the event, one after 99
elapsed samples discards it. -/
theorem duration_gate_amended_witness :
    (∀ e ∈ detect_respiratory_events testTime testFlow 0 60,
        e.duration = e.endTime - e.startTime ∧ 10 ≤ e.duration) ∧
    (∀ e ∈ wholeStudyEvents 10 testTime testFlow,
        (minSamples 10 : ℚ) / 10 ≤ e.duration ∧
          ((minSamples 10 : ℚ) = 10 * 10 → 10 ≤ e.duration)) ∧
    studyStep 10 testTime ([], some (0, EventType.apnea)) (100, 1) =
      ([⟨EventType.apnea, testTime.getD 0 0, testTime.getD 100 0,
          ((100 : ℚ) - (0 : ℚ)) / 10⟩], none) ∧
    studyStep 10 testTime ([], some (0, EventType.apnea)) (99, 1) = ([], none) := by
  have h1 := duration_gate_amended testTime testFlow 0 60 10 [] 0 100 EventType.apnea 1
    (by norm_num)
  have h2 := duration_gate_amended testTime testFlow 0 60 10 [] 0 99 EventType.apnea 1
    (by norm_num)
  exact ⟨h1.1, h1.2.1, (h1.2.2 (by norm_num)).1 (by decide), (h2.2.2 (by norm_num)).2 (by decide)⟩

/-- Counterexample to C7 as stated: the whole-study analysis of an empty
study does not return zero-valued results — it raises (IndexError on
`time_series.iloc[-1]`, division by zero further down), embedded as `none` —
even though both classifier scans of the empty channels do yield zero
events. -/
theorem empty_study_analysis_none :
    analyze_full_study 10 ⟨[], [], [], [], [], [], []⟩ = none ∧
    wholeStudyEvents 10 [] [] = [] ∧
    detect_respiratory_events [] [] 0 30 = [] :=
  ⟨rfl, rfl, rfl⟩

/-- C7 (amended): a flow channel shorter than the minimum-duration window
yields zero events in both modes without failing — windowed mode whenever
the whole time axis spans less than 10 s (in particular on empty input),
whole-study mode whenever the channel has at most `int(10 * sample_rate)`
samples.  Whole-study *analysis* of an empty study, however, raises rather
than returning zero events (see the counterexample). -/
theorem short_channel_zero_events_amended (time flow : List ℚ) (a b sr : ℚ)
    (hspan : ∀ t1 ∈ time, ∀ t2 ∈ time, t2 - t1 < 10)
    (hlen : (flow.length : ℤ) ≤ minSamples sr) :
    detect_respiratory_events time flow a b = [] ∧
    wholeStudyEvents sr time flow = [] ∧
    detect_respiratory_events [] flow a b = [] := by
  have hsub : ∀ x ∈ (scannedPairs time flow a b).map Prod.fst, x ∈ time := by
    intro x hx
    rcases List.mem_map.mp hx with ⟨pq, hpq, rfl⟩
    obtain ⟨x1, x2⟩ := pq
    have hmem := (List.of_mem_zip hpq).1
    exact List.drop_subset _ _ (List.take_subset _ _ hmem)
  refine ⟨?_, ?_, rfl⟩
  · rw [List.eq_nil_iff_forall_not_mem]
    intro e he
    rcases osaScan_events _ _ e he with h | ⟨hd, hge, hend, hstart⟩
    · simp at h
    · rcases hstart with hstart | ⟨ty, hst⟩
      · have h1 := hsub _ hstart
        have h2 := hsub _ hend
        have hlt := hspan _ h1 _ h2
        rw [hd] at hge
        linarith
      · simp at hst
  · rw [List.eq_nil_iff_forall_not_mem]
    intro e he
    rcases studyScan_events sr time _ _ e he with h | ⟨s, i, ty, hgate, _, hi⟩
    · simp at h
    · rw [List.enum_map_fst] at hi
      have hilt := List.mem_range.mp hi
      omega

/-- Witness for C7: a three-sample (0.3 s) all-apnea-band channel yields no
events in either mode. -/
theorem short_channel_zero_events_amended_witness :
    detect_respiratory_events [0, 1/10, 1/5] [1/20, 1/20, 1/20] 0 1 = [] ∧
    wholeStudyEvents 10 [0, 1/10, 1/5] [1/20, 1/20, 1/20] = [] ∧
    detect_respiratory_events [] [1/20, 1/20, 1/20] 0 1 = [] :=
  short_channel_zero_events_amended [0, 1/10, 1/5] [1/20, 1/20, 1/20] 0 1 10
    (by decide) (by decide)

/-- C2 (amended): on the 600-sample 10 Hz test signal with the single
12-second dip, windowed-mode classification over a window containing the
whole study returns exactly one event — Apnea, start 10 s, end 22 s,
duration 12 s — and the whole-study scan closes exactly the same single
gated episode. -/
theorem modes_agree_on_test_signal :
    detect_respiratory_events testTime testFlow 0 60 =
      [⟨EventType.apnea, 10, 22, 12⟩] ∧
    wholeStudyEvents 10 testTime testFlow = [⟨EventType.apnea, 10, 22, 12⟩] := by
  decide

/-- Counterexample to the general part of C2: on the boundary signal (one
flow sample exactly at 0.3 at the end of a 10 s dip), a window containing
the entire study gives different events in the two modes — the whole-study
scan recovers at flow 0.3 and closes the episode at t = 10 s, the windowed
scan recovers only strictly above 0.3 and closes it at t = 10.1 s. -/
theorem modes_disagree_counterexample :
    detect_respiratory_events borderTime borderFlow 0 11 =
      [⟨EventType.apnea, 0, 101/10, 101/10⟩] ∧
    wholeStudyEvents 10 borderTime borderFlow = [⟨EventType.apnea, 0, 10, 10⟩] ∧
    ([⟨EventType.apnea, (0:ℚ), 101/10, 101/10⟩] : List RespiratoryEvent) ≠
      [⟨EventType.apnea, 0, 10, 10⟩] := by
  decide

/-- On a strictly increasing time axis, the windowed scan slice is exactly
the closed time interval: the scanned pairs are those whose time `t`
satisfies `a ≤ t ≤ b`. -/
lemma slice_eq_filter (time : List ℚ) :
    ∀ flow : List ℚ, List.Pairwise (· < ·) time → time.length = flow.length →
      ∀ a b : ℚ,
        scannedPairs time flow a b =
          (time.zip flow).filter (fun p => decide (a ≤ p.1) && decide (p.1 ≤ b)) := by
  induction time with
  | nil =>
      intro flow _ _ a b
      simp [scannedPairs, ilocSlice, searchsortedLeft, searchsortedRight]
  | cons t ts ih =>
      intro flow hs hlen a b
      cases flow with
      | nil => simp at hlen
      | cons f fs =>
          obtain ⟨hts, hs'⟩ := List.pairwise_cons.mp hs
          have hlen' : ts.length = fs.length := by simpa using hlen
          by_cases h1 : t < a
          · have hc1 : searchsortedLeft (t :: ts) a = searchsortedLeft ts a + 1 := by
              simp [searchsortedLeft, List.countP_cons, h1]
            by_cases h2 : t ≤ b
            · have hc2 : searchsortedRight (t :: ts) b = searchsortedRight ts b + 1 := by
                simp [searchsortedRight, List.countP_cons, h2]
              have lhs : scannedPairs (t :: ts) (f :: fs) a b = scannedPairs ts fs a b := by
                simp only [scannedPairs, hc1, hc2, ilocSlice, List.drop_succ_cons,
                  Nat.succ_sub_succ]
              rw [lhs, ih fs hs' hlen' a b, List.zip_cons_cons, List.filter_cons]
              have hpa : (decide (a ≤ (t, f).1) && decide ((t, f).1 ≤ b)) = false := by
                simp [not_le.mpr h1]
              rw [hpa]
              simp
            · have hb : b < t := not_le.mp h2
              have hc2 : searchsortedRight (t :: ts) b = 0 := by
                simp only [searchsortedRight, List.countP_cons]
                have hz : ts.countP (fun x => decide (x ≤ b)) = 0 := by
                  rw [List.countP_eq_zero]
                  intro x hx
                  simp only [decide_eq_true_eq]
                  exact not_le.mpr (lt_trans hb (hts x hx))
                simp [hz, not_le.mpr hb]
              have lhs : scannedPairs (t :: ts) (f :: fs) a b = [] := by
                simp [scannedPairs, hc2, ilocSlice, Nat.zero_sub]
              rw [lhs]
              symm
              rw [List.filter_eq_nil_iff]
              intro p hp
              rw [List.zip_cons_cons] at hp
              rcases List.mem_cons.mp hp with rfl | hp
              · simp [not_le.mpr h1]
              · obtain ⟨x, y⟩ := p
                have hx : x ∈ ts := (List.of_mem_zip hp).1
                simp [not_le.mpr (lt_trans hb (hts x hx))]
          · have ha : a ≤ t := not_lt.mp h1
            have hzl : ts.countP (fun x => decide (x < a)) = 0 := by
              rw [List.countP_eq_zero]
              intro x hx
              simp only [decide_eq_true_eq]
              exact not_lt.mpr (le_trans ha (le_of_lt (hts x hx)))
            have hc1 : searchsortedLeft (t :: ts) a = 0 := by
              simp [searchsortedLeft, List.countP_cons, hzl, h1]
            have hc1' : searchsortedLeft ts a = 0 := hzl
            by_cases h2 : t ≤ b
            · have hc2 : searchsortedRight (t :: ts) b = searchsortedRight ts b + 1 := by
                simp [searchsortedRight, List.countP_cons, h2]
              have lhs : scannedPairs (t :: ts) (f :: fs) a b =
                  (t, f) :: scannedPairs ts fs a b := by
                simp only [scannedPairs, hc1, hc2, ilocSlice, hc1', List.drop_zero,
                  Nat.sub_zero, List.take_succ_cons, List.zip_cons_cons]
              rw [lhs, ih fs hs' hlen' a b, List.zip_cons_cons, List.filter_cons]
              have hpa : (decide (a ≤ (t, f).1) && decide ((t, f).1 ≤ b)) = true := by
                simp [ha, h2]
              rw [hpa]
              rfl
            · have hb : b < t := not_le.mp h2
              have hc2 : searchsortedRight (t :: ts) b = 0 := by
                simp only [searchsortedRight, List.countP_cons]
                have hz : ts.countP (fun x => decide (x ≤ b)) = 0 := by
                  rw [List.countP_eq_zero]
                  intro x hx
                  simp only [decide_eq_true_eq]
                  exact not_le.mpr (lt_trans hb (hts x hx))
                simp [hz, not_le.mpr hb]
              have lhs : scannedPairs (t :: ts) (f :: fs) a b = [] := by
                simp [scannedPairs, hc2, ilocSlice, Nat.zero_sub]
              rw [lhs]
              symm
              rw [List.filter_eq_nil_iff]
              intro p hp
              rw [List.zip_cons_cons] at hp
              rcases List.mem_cons.mp hp with rfl | hp
              · simp [not_le.mpr hb]
              · obtain ⟨x, y⟩ := p
                have hx : x ∈ ts := (List.of_mem_zip hp).1
                simp [not_le.mpr (lt_trans hb (hts x hx))]

/-- C4 (amended): on a strictly increasing time axis shared by time and flow
channels, the windowed classifier scans exactly the samples with
`start_time ≤ t ≤ end_time` — a slice closed at both ends, not half-open —
and window bounds covering more than the data clip to the whole channel
rather than failing. -/
theorem window_slice_amended (time flow : List ℚ) (a b : ℚ)
    (hs : List.Pairwise (· < ·) time) (hlen : time.length = flow.length) :
    scannedPairs time flow a b =
      (time.zip flow).filter (fun p => decide (a ≤ p.1) && decide (p.1 ≤ b)) ∧
    ((∀ t ∈ time, a ≤ t ∧ t ≤ b) → scannedPairs time flow a b = time.zip flow) := by
  have h := slice_eq_filter time flow hs hlen a b
  refine ⟨h, fun hall => ?_⟩
  rw [h, List.filter_eq_self]
  intro p hp
  obtain ⟨x, y⟩ := p
  have hx : x ∈ time := (List.of_mem_zip hp).1
  rcases hall x hx with ⟨hx1, hx2⟩
  simp [hx1, hx2]

/-- Witness for C4 on a concrete sorted three-sample channel with window
bounds beyond the data on both sides. -/
theorem window_slice_amended_witness :
    scannedPairs [0, 1, 2] [5, 5, 5] (-1) 7 =
      (([0, 1, 2] : List ℚ).zip [5, 5, 5]).filter
        (fun p => decide ((-1 : ℚ) ≤ p.1) && decide (p.1 ≤ 7)) ∧
    ((∀ t ∈ ([0, 1, 2] : List ℚ), (-1 : ℚ) ≤ t ∧ t ≤ 7) →
      scannedPairs [0, 1, 2] [5, 5, 5] (-1) 7 = ([0, 1, 2] : List ℚ).zip [5, 5, 5]) :=
  window_slice_amended [0, 1, 2] [5, 5, 5] (-1) 7 (by decide) rfl

/-- Counterexample to C4 as stated: the scanned slice is closed on the
right, not half-open.  On the edge signal, the sample at exactly
`t = end_time = 10` is scanned (numpy searchsorted side right), closing the
episode and emitting an event; under the claimed half-open scan the episode
would never close and no event would be returned. -/
theorem window_slice_halfopen_counterexample :
    detect_respiratory_events edgeTime edgeFlow 0 10 =
      [⟨EventType.apnea, 0, 10, 10⟩] ∧
    detectEventsHalfOpenSpec edgeTime edgeFlow 0 10 = [] := by
  decide

/-- C8: the whole-study analysis tracks position samples by integer position
code: the reported supine/left/right/prone percentages are exactly 100 times
the fraction of samples whose derived code is 0/1/2/3, and every code at
least 4 occurring in the data is accepted without failure and reported in
the other-positions sub-mapping with the same generic percentage.  (Stated
under the data-model alignment invariant that the position channel has the
same length as the flow channel.) -/
theorem position_percentages (sr : ℚ) (s : StudySignals)
    (ht : s.time ≠ []) (hf : s.flow ≠ []) (ha : s.activity ≠ []) (ho : s.spo2 ≠ [])
    (halign : s.bodyPos.length = s.flow.length) :
    ∃ r, analyze_full_study sr s = some r ∧
      r.supinePercent = ((posCount s 0 : ℚ) / (s.bodyPos.length : ℚ)) * 100 ∧
      r.leftPercent = ((posCount s 1 : ℚ) / (s.bodyPos.length : ℚ)) * 100 ∧
      r.rightPercent = ((posCount s 2 : ℚ) / (s.bodyPos.length : ℚ)) * 100 ∧
      r.pronePercent = ((posCount s 3 : ℚ) / (s.bodyPos.length : ℚ)) * 100 ∧
      ∀ k : ℤ, 4 ≤ k → posCount s k ≠ 0 →
        r.otherPositions k = some (((posCount s k : ℚ) / (s.bodyPos.length : ℚ)) * 100) := by
  have hpos : 0 < s.bodyPos.length := by
    rw [halign]
    exact List.length_pos.mpr hf
  refine ⟨analyzeCore sr s, by simp [analyze_full_study, ht, hf, ha, ho],
    ?_, ?_, ?_, ?_, ?_⟩
  · simp only [analyzeCore]
    rw [if_pos hpos]
  · simp only [analyzeCore]
    rw [if_pos hpos]
  · simp only [analyzeCore]
    rw [if_pos hpos]
  · simp only [analyzeCore]
    rw [if_pos hpos]
  · intro k hk hnz
    simp only [analyzeCore]
    rw [if_pos ⟨by omega, hnz⟩, if_pos hpos]

/-- Witness for C8 at a six-sample study whose position channel holds the
four standard codes and twice the non-standard code 7. -/
theorem position_percentages_witness :
    ∃ r, analyze_full_study 10
        ⟨[0, 1, 2, 3, 4, 5], [1, 1, 1, 1, 1, 1], [0, 1, 2, 3, 7, 7],
         [1, 1, 1, 1, 1, 1], [1, 1, 1, 1, 1, 1], [1, 1, 1, 1, 1, 1],
         [1, 1, 1, 1, 1, 1]⟩ = some r ∧
      r.supinePercent =
        ((posCount ⟨[0, 1, 2, 3, 4, 5], [1, 1, 1, 1, 1, 1], [0, 1, 2, 3, 7, 7],
            [1, 1, 1, 1, 1, 1], [1, 1, 1, 1, 1, 1], [1, 1, 1, 1, 1, 1],
            [1, 1, 1, 1, 1, 1]⟩ 0 : ℚ) / (6 : ℚ)) * 100 ∧
      r.leftPercent =
        ((posCount ⟨[0, 1, 2, 3, 4, 5], [1, 1, 1, 1, 1, 1], [0, 1, 2, 3, 7, 7],
            [1, 1, 1, 1, 1, 1], [1, 1, 1, 1, 1, 1], [1, 1, 1, 1, 1, 1],
            [1, 1, 1, 1, 1, 1]⟩ 1 : ℚ) / (6 : ℚ)) * 100 ∧
      r.rightPercent =
        ((posCount ⟨[0, 1, 2, 3, 4, 5], [1, 1, 1, 1, 1, 1], [0, 1, 2, 3, 7, 7],
            [1, 1, 1, 1, 1, 1], [1, 1, 1, 1, 1, 1], [1, 1, 1, 1, 1, 1],
            [1, 1, 1, 1, 1, 1]⟩ 2 : ℚ) / (6 : ℚ)) * 100 ∧
      r.pronePercent =
        ((posCount ⟨[0, 1, 2, 3, 4, 5], [1, 1, 1, 1, 1, 1], [0, 1, 2, 3, 7, 7],
            [1, 1, 1, 1, 1, 1], [1, 1, 1, 1, 1, 1], [1, 1, 1, 1, 1, 1],
            [1, 1, 1, 1, 1, 1]⟩ 3 : ℚ) / (6 : ℚ)) * 100 ∧
      ∀ k : ℤ, 4 ≤ k →
        posCount ⟨[0, 1, 2, 3, 4, 5], [1, 1, 1, 1, 1, 1], [0, 1, 2, 3, 7, 7],
            [1, 1, 1, 1, 1, 1], [1, 1, 1, 1, 1, 1], [1, 1, 1, 1, 1, 1],
            [1, 1, 1, 1, 1, 1]⟩ k ≠ 0 →
        r.otherPositions k =
          some (((posCount ⟨[0, 1, 2, 3, 4, 5], [1, 1, 1, 1, 1, 1], [0, 1, 2, 3, 7, 7],
              [1, 1, 1, 1, 1, 1], [1, 1, 1, 1, 1, 1], [1, 1, 1, 1, 1, 1],
              [1, 1, 1, 1, 1, 1]⟩ k : ℚ) / (6 : ℚ)) * 100) :=
  position_percentages 10 _ (by decide) (by decide) (by decide) (by decide) rfl

end SleepSense
